import Mathlib

/-!
Verification of the configuration-resolution pipeline of the
ansible-container repository (src/container/config.py).

The embedding models:

* YAML-like values (`Value`) and order-preserving mappings (`OMap`) with the
  overwrite-in-place `oset`/`update` operations of Python (ruamel) dicts,
* the host-side loader `set_env` with its validation (`validate_config`),
  `dev_overrides` handling, variables-file lookup
  (`get_variables_from_file`) and defaults resolution (`resolve_defaults`),
* the conductor-side template processor (`process_section`,
  `process_defaults`, `process_services`).

External collaborators (the ruamel round-trip serializer, the Ansible
template evaluator, the role metadata store, the filesystem and the process
environment) are modelled from the spec at their interface boundary: the
serializer as an executable serialize/parse pair, the evaluator as a
concrete substitution function on text, the remaining ones as function
parameters.  Uncaught Python exceptions (TypeError/KeyError/AssertionError
on malformed input shapes) are modelled by the distinguished error
`LoadErr.crash` on the loader side and by `Option.none` on the conductor
side.
-/

/-- A YAML/JSON-like value as manipulated by config.py (scalars, sequences,
order-preserving mappings). -/
inductive Value where
  | str (s : String)
  | int (n : Int)
  | bool (b : Bool)
  | null
  | list (xs : List Value)
  | map (kvs : List (String × Value))

/-- An order-preserving string-keyed mapping (ruamel `ordereddict`). -/
abbrev OMap := List (String × Value)

/-- First-occurrence lookup, i.e. `m[k]` / `m.get(k)` of a Python dict
(whose key lists are duplicate-free). -/
def olookup {α : Type} : List (String × α) → String → Option α
  | [], _ => none
  | (k2, v) :: r, k => if k2 = k then some v else olookup r k

/-- `m[k] = v` on an ordered dict: an existing key keeps its position and has
its value replaced, a new key is appended at the end. -/
def oset {α : Type} : List (String × α) → String → α → List (String × α)
  | [], k, v => [(k, v)]
  | (k0, v0) :: r, k, v => if k0 = k then (k, v) :: r else (k0, v0) :: oset r k v

/-- `m1.update(m2)` on ordered dicts: assign every entry of `m2` in order. -/
def update {α : Type} (m1 m2 : List (String × α)) : List (String × α) :=
  m2.foldl (fun acc p => oset acc p.1 p.2) m1

/-- `del m[k]` / `m.pop(k)`: drop the entries with key `k`. -/
def oremove {α : Type} (m : List (String × α)) (k : String) : List (String × α) :=
  m.filter (fun p => !(p.1 == k))

/-- The key list of the mapping is duplicate-free (always true of a mapping
that came from a Python dict). -/
def nodupKeys {α : Type} : List (String × α) → Bool
  | [] => true
  | (k, _) :: r => !(r.any (fun p => p.1 == k)) && nodupKeys r

theorem olookup_eq_none {α : Type} (m : List (String × α)) (k : String)
    (h : m.any (fun p => p.1 == k) = false) : olookup m k = none := by
  induction m with
  | nil => rfl
  | cons p r ih =>
    obtain ⟨k0, v0⟩ := p
    simp only [List.any_cons, Bool.or_eq_false_iff, beq_eq_false_iff_ne] at h
    simp only [olookup, if_neg h.1]
    exact ih h.2

theorem oset_lookup {α : Type} (m : List (String × α)) (k k' : String) (v : α) :
    olookup (oset m k v) k' = if k = k' then some v else olookup m k' := by
  induction m with
  | nil =>
    by_cases h : k = k' <;> simp [oset, olookup, h]
  | cons p r ih =>
    obtain ⟨k0, v0⟩ := p
    by_cases h0 : k0 = k
    · subst h0
      by_cases h : k0 = k'
      · simp [oset, olookup, h]
      · simp [oset, olookup, h]
    · by_cases h' : k0 = k'
      · subst h'
        have hne : ¬ k = k0 := fun hh => h0 hh.symm
        simp [oset, olookup, h0, hne, if_neg hne]
      · simp [oset, olookup, h0, h', ih]

theorem orElse_assoc {α : Type} (a b c : Option α) :
    ((a <|> b) <|> c) = (a <|> (b <|> c)) := by
  cases a <;> rfl

theorem none_orElse {α : Type} (b : Option α) : ((none : Option α) <|> b) = b := rfl

theorem some_orElse {α : Type} (x : α) (b : Option α) : ((some x <|> b) : Option α) = some x := rfl

theorem update_nil {α : Type} (m : List (String × α)) : update m [] = m := rfl

theorem update_cons {α : Type} (m r : List (String × α)) (k : String) (v : α) :
    update m ((k, v) :: r) = update (oset m k v) r := rfl

/-- Lookup in `m1.update(m2)`: a key of `m2` wins, otherwise `m1` answers. -/
theorem update_lookup {α : Type} (m2 m1 : List (String × α)) (k : String)
    (h : nodupKeys m2 = true) :
    olookup (update m1 m2) k = ((olookup m2 k) <|> olookup m1 k) := by
  induction m2 generalizing m1 with
  | nil => rfl
  | cons p r ih =>
    obtain ⟨k0, v0⟩ := p
    simp only [nodupKeys, Bool.and_eq_true, Bool.not_eq_true'] at h
    rw [update_cons, ih _ h.2]
    by_cases hk : k0 = k
    · subst hk
      have : olookup r k0 = none := olookup_eq_none r k0 h.1
      simp [oset_lookup, olookup, this]
    · simp [oset_lookup, olookup, hk, Ne.symm hk]

theorem findSome?_append_singleton {α β : Type} (l : List α) (x : α) (f : α → Option β) :
    ((l ++ [x]).findSome? f) = ((l.findSome? f) <|> f x) := by
  induction l with
  | nil =>
    simp only [List.nil_append, List.findSome?, none_orElse]
    cases f x <;> rfl
  | cons y r ih =>
    simp only [List.cons_append, List.findSome?]
    cases f y
    · exact ih
    · rfl

theorem foldl_update_lookup {α : Type} (vfs : List (List (String × α)))
    (d : List (String × α)) (k : String)
    (h : ∀ vf ∈ vfs, nodupKeys vf = true) :
    olookup (vfs.foldl update d) k =
      ((vfs.reverse.findSome? fun vf => olookup vf k) <|> olookup d k) := by
  induction vfs generalizing d with
  | nil => rfl
  | cons vf rest ih =>
    have hvf : nodupKeys vf = true := h vf (List.mem_cons_self _ _)
    have hrest : ∀ m ∈ rest, nodupKeys m = true := fun m hm => h m (List.mem_cons_of_mem _ hm)
    simp only [List.foldl_cons, List.reverse_cons]
    rw [ih (update d vf) hrest, findSome?_append_singleton, update_lookup _ _ _ hvf,
      orElse_assoc]

/-- Loader-side failure modes: the two exception classes imported by
config.py (`AnsibleContainerNotInitializedException`,
`AnsibleContainerConfigException`) plus `crash` for uncaught Python
exceptions (TypeError/KeyError/AssertionError/AttributeError). -/
inductive LoadErr where
  | notInitialized
  | configError (msg : String)
  | crash

def LoadErr.isConfigError : LoadErr → Bool
  | .configError _ => true
  | _ => false

/-- Python truthiness of a value (`if not service_config`, `if vars_files`,
`if config.get('defaults')`, ...). -/
def truthy : Value → Bool
  | .null => false
  | .bool b => b
  | .int n => !(n == 0)
  | .str s => !(s == "")
  | .list xs => !xs.isEmpty
  | .map kvs => !kvs.isEmpty

def isStrV : Value → Bool
  | .str _ => true
  | _ => false

def TOP_LEVEL_WHITELIST : List String :=
  ["version", "settings", "volumes", "services", "defaults", "registries", "secrets"]

def SUPPORTED_COMPOSE_VERSIONS : List String := ["1", "2"]

/-! Character-list implementations of the string scanning primitives used
by config.py (`startswith`, `lower`, `split`, `join`, `endswith`), written
out so that every definition in this file evaluates by reduction. -/

def sStartsWith (s pre : String) : Bool :=
  s.data.take pre.data.length == pre.data

def sDrop (s : String) (n : Nat) : String :=
  String.mk (s.data.drop n)

/-- ASCII lowercasing (`str.lower`). -/
def lowerChar (c : Char) : Char :=
  if 65 ≤ c.toNat && c.toNat ≤ 90 then Char.ofNat (c.toNat + 32) else c

def sToLower (s : String) : String :=
  String.mk (s.data.map lowerChar)

def sEndsWith (s suffix : String) : Bool :=
  s.data.reverse.take suffix.data.length == suffix.data.reverse

/-- `str.split(sep)` for a one-character separator. -/
def splitOnChar (sep : Char) : List Char → List (List Char)
  | [] => [[]]
  | c :: r =>
    match splitOnChar sep r with
    | [] => [[]]
    | piece :: pieces => if c == sep then [] :: (piece :: pieces) else (c :: piece) :: pieces

/-- `sep.join(pieces)` for a one-character separator. -/
def joinChar (sep : Char) : List (List Char) → List Char
  | [] => []
  | [piece] => piece
  | piece :: pieces => piece ++ sep :: joinChar sep pieces

/-- The key loop of `_validate_config` (lines 255-266): walk the top-level
keys in document order, rejecting non-whitelisted keys and unsupported
versions, normalizing null sections to empty mappings, and recording the
deprecation warning for version '1'.  `acc` is the (mutated) config, the
Bool records whether the deprecation warning was logged. -/
def validate_keys : OMap → OMap → Bool → Except LoadErr (OMap × Bool)
  | [], acc, warned => .ok (acc, warned)
  | (k, v) :: rest, acc, warned =>
    if TOP_LEVEL_WHITELIST.contains k then
      if k = "version" then
        match v with
        | .str s =>
          if s = "1" then validate_keys rest acc true
          else if s = "2" then validate_keys rest acc warned
          else .error (.configError "requested version is not supported")
        | _ => .error (.configError "requested version is not supported")
      else
        match v with
        | .null => validate_keys rest (oset acc k (.map [])) warned
        | _ => validate_keys rest acc warned
    else .error (.configError ("invalid key '" ++ k ++ "'"))

/-- `_validate_config` (lines 250-266): the required key `services` must be
present and non-null, then the key loop runs. -/
def validate_config (config : OMap) : Except LoadErr (OMap × Bool) :=
  match olookup config "services" with
  | none => .error (.configError "Missing expected key 'services'")
  | some .null => .error (.configError "Missing expected key 'services'")
  | some _ => validate_keys config config false

/-- `_get_environment_variables` (lines 186-201): each environment variable
whose name starts with `AC_` contributes its name without the prefix,
lowercased, bound to the raw string value. -/
def get_environment_variables (environ : List (String × String)) : OMap :=
  environ.foldl
    (fun acc p =>
      if sStartsWith p.1 "AC_" then oset acc (sToLower (sDrop p.1 3)) (Value.str p.2) else acc)
    []

/-- `os.path.abspath` relative to the process working directory (path
normalization of redundant separators elided; config.py never relies on
it). -/
def abspathOf (cwd p : String) : String :=
  if sStartsWith p "/" then p else cwd ++ "/" ++ p

/-- `os.path.split`: directory part and final component. -/
def splitPath (p : String) : String × String :=
  let parts := splitOnChar '/' p.data
  (String.mk (joinChar '/' parts.dropLast), String.mk (parts.getLastD []))

/-- The extension part of `os.path.splitext` on a final path component: the
last dot starts the extension unless only dots precede it. -/
def splitextExt (filename : String) : String :=
  let rev := filename.data.reverse
  let pre := rev.takeWhile (fun c => !(c == '.'))
  if pre.length == rev.length then ""
  else
    let before := rev.drop (pre.length + 1)
    if before.any (fun c => !(c == '.')) then String.mk ('.' :: pre.reverse) else ""

/-- `_get_variables_from_file` (lines 203-228).  `fs` is the filesystem
(absolute path to file contents), `parseY`/`parseJ` the external YAML/JSON
parsers, `cwd` the process working directory used by `path.abspath`.  Note
that the code resolves `var_file` against the working directory only; the
project `base_path` is never consulted. -/
def get_variables_from_file (fs : String → Option String)
    (parseY parseJ : String → Except String OMap) (cwd : String) (var_file : String) :
    Except LoadErr OMap :=
  let abspath := abspathOf cwd var_file
  match fs abspath with
  | none =>
    .error (.configError
      ("Variables file \"" ++ (splitPath abspath).2 ++ "\" not found. (I looked in \"" ++
        (splitPath abspath).1 ++ "\" for it.)"))
  | some content =>
    let ext := sToLower (splitextExt (splitPath abspath).2)
    if sEndsWith ext "yml" || sEndsWith ext "yaml" then
      match parseY content with
      | .ok m => .ok m
      | .error e => .error (.configError ("YAML exception: " ++ e))
    else
      match parseJ content with
      | .ok m => .ok m
      | .error e => .error (.configError ("JSON exception: " ++ e))

/-- Lines 132-135: pop `dev_overrides` from a mapping service entry and merge
it into the entry exactly in dev mode. -/
def apply_dev_overrides (env : String) (m : OMap) : Except LoadErr OMap :=
  let devo := (olookup m "dev_overrides").getD (Value.map [])
  let m2 := oremove m "dev_overrides"
  if env == "dev" then
    match devo with
    | .map d => .ok (update m2 d)
    | _ => .error .crash
  else .ok m2

/-- Lines 136-143: expand user/home/vars in the source piece of each
`src:dest[:mode]` volume string.  `expand` models
`normpath(expandvars(expanduser(.)))`. -/
def expandVolumes (expand : String → String) (m : OMap) : Except LoadErr OMap :=
  match olookup m "volumes" with
  | none => .ok m
  | some (.list vols) =>
    (vols.mapM (fun v =>
      match v with
      | Value.str s =>
        match splitOnChar ':' s.data with
        | [] => (.ok (Value.str s) : Except LoadErr Value)
        | p0 :: rest =>
          (.ok (Value.str (String.mk (joinChar ':' ((expand (String.mk p0)).data :: rest)))) :
            Except LoadErr Value)
      | _ => (.error .crash : Except LoadErr Value))).map
      (fun vs => oset m "volumes" (.list vs))
  | some _ => .error .crash

/-- The body of the per-service loop of `set_env` (lines 128-147). -/
def process_loader_service (expand : String → String) (remove_engines : List String)
    (env : String) (name : String) (sc : Value) : Except LoadErr Value :=
  if !(truthy sc) || isStrV sc then
    .error (.configError ("Error: no definition found in container.yml for service " ++ name ++ "."))
  else
    match sc with
    | .map m => do
      let m2 ← apply_dev_overrides env m
      let m3 ← expandVolumes expand m2
      .ok (.map (remove_engines.foldl oremove m3))
    | .list l =>
      if l.any (fun v => match v with | .str s => s == "volumes" | _ => false) then .error .crash
      else if remove_engines.any (fun e2 => l.any (fun v => match v with | .str s => s == e2 | _ => false)) then
        .error .crash
      else .ok (.list l)
    | _ => .error .crash

/-- The service loop of `set_env`: rewrite every entry of the `services`
section through `process_loader_service` (`config.get('services') or {}`). -/
def loadServices (expand : String → String) (remove_engines : List String) (env : String)
    (config : OMap) : Except LoadErr OMap :=
  match olookup config "services" with
  | none => .ok config
  | some (.map svcs) =>
    (svcs.mapM (fun p =>
      (process_loader_service expand remove_engines env p.1 p.2).map (fun v => (p.1, v)))).map
      (fun svcs2 => oset config "services" (.map svcs2))
  | some v => if truthy v then .error .crash else .ok config

/-- Lines 149-152: ensure a `settings` mapping exists and set
`settings.pwd = base_path`. -/
def injectPwd (base_path : String) (config : OMap) : Except LoadErr OMap :=
  match olookup config "settings" with
  | none => .ok (oset config "settings" (.map [("pwd", .str base_path)]))
  | some .null => .error .crash
  | some (.map s) => .ok (oset config "settings" (.map (oset s "pwd" (.str base_path))))
  | some _ => .error .crash

/-- `settings.vars_files` fallback of line 174 (only consulted when the CLI
var-file list is falsy). -/
def settingsVarsFiles (config : OMap) : Except LoadErr (List String)  :=
  match olookup config "settings" with
  | some (.map s) =>
    match olookup s "vars_files" with
    | none => .ok []
    | some (.list vs) =>
      if vs.isEmpty then .ok []
      else vs.mapM (fun v => match v with
        | Value.str f => (.ok f : Except LoadErr String)
        | _ => (.error .crash : Except LoadErr String))
    | some v => if truthy v then .error .crash else .ok []
  | none => .ok []
  | some _ => .error .crash

/-- `vars_files = self.cli_vars_files or config.get('settings', {}).get('vars_files')`. -/
def varFileNames (cli : Option (List String)) (config : OMap) : Except LoadErr (List String) :=
  match cli with
  | some l => if l.isEmpty then settingsVarsFiles config else .ok l
  | none => settingsVarsFiles config

/-- `_resolve_defaults` (lines 159-184), returning the resolved defaults
mapping: document defaults, updated by each var file in listed order, then
by the `AC_`-environment variables.  `reader` models
`_get_variables_from_file`. -/
def resolve_defaults_value (reader : String → Except LoadErr OMap)
    (cli : Option (List String)) (environ : List (String × String)) (config : OMap) :
    Except LoadErr OMap := do
  let d0 ← (match olookup config "defaults" with
    | none => .ok ([] : OMap)
    | some (.map d) => .ok d
    | some _ => (.error .crash : Except LoadErr OMap))
  let names ← varFileNames cli config
  let d1 ← names.foldlM (fun acc f => (reader f).map (fun vf => update acc vf)) d0
  .ok (update d1 (get_environment_variables environ))

/-- `_resolve_defaults` as it acts on the config tree (mutates
`config['defaults']`). -/
def resolve_defaults (reader : String → Except LoadErr OMap)
    (cli : Option (List String)) (environ : List (String × String)) (config : OMap) :
    Except LoadErr OMap :=
  (resolve_defaults_value reader cli environ config).map
    (fun d => oset config "defaults" (.map d))

/-- `set_env` (lines 110-157).  `file` models the attempt to open and parse
`container.yml`: `none` is a missing file (IOError), `some (.error e)` a
YAML parse failure with message `e`, `some (.ok c)` the parsed document. -/
def set_env (expand : String → String) (environ : List (String × String))
    (cli_vars_files : Option (List String)) (reader : String → Except LoadErr OMap)
    (remove_engines : List String) (base_path : String) (env : String)
    (file : Option (Except String OMap)) : Except LoadErr OMap :=
  if !(env == "dev" || env == "prod") then .error .crash
  else
    match file with
    | none => .error .notInitialized
    | some (.error e) => .error (.configError ("Parsing container.yml - " ++ e))
    | some (.ok config) =>
      (validate_config config).bind fun vc =>
      (loadServices expand remove_engines env vc.1).bind fun config2 =>
      (injectPwd base_path config2).bind fun config3 =>
      resolve_defaults reader cli_vars_files environ config3

/-! ### Conductor side: text round-trip and template evaluation

`_process_section` evaluates strings through the Ansible `Templar` and
round-trips lists/mappings through the ruamel serializer around a `Templar`
call.  Both collaborators are external; they are modelled from the spec:
the document store as a concrete executable serialize/parse pair over
`Value` (§6: `parse(serialize(tree))` recovers the tree), and the template
evaluator as a concrete substitution function on text that replaces
`{{name}}` by the context value of `name` and leaves unresolvable
references as literal template text (§4.3, §6). -/

def lbrace : Char := Char.ofNat 123

def rbrace : Char := Char.ofNat 125

/-- Scanner state machine: does `cs` contain two adjacent open braces, given
that `p` records whether the previous character was an open brace? -/
def ddFrom : Bool → List Char → Bool
  | _, [] => false
  | p, c :: cs => (p && (c == lbrace)) || ddFrom (c == lbrace) cs

/-- Whether the last character is an open brace (`p` if the list is empty). -/
def endB (p : Bool) : List Char → Bool
  | [] => p
  | c :: cs => endB (c == lbrace) cs

/-- Text contains template syntax (an occurrence of two adjacent open
braces). -/
def hasTmpl (cs : List Char) : Bool := ddFrom false cs

/-- Serialized form of a string: tag, unary length, separator, raw chars. -/
def serStr (s : List Char) : List Char :=
  's' :: (List.replicate s.length '1' ++ ':' :: s)

/-- Serialized form of an integer: sign and unary magnitude. -/
def serInt (n : Int) : List Char :=
  if n < 0 then '-' :: List.replicate n.natAbs '1' else List.replicate n.natAbs '1'

mutual

/-- Serialize a value to text (the model of the external document store's
`serialize`). -/
def serV : Value → List Char
  | .null => ['n']
  | .bool true => ['t']
  | .bool false => ['f']
  | .int n => 'i' :: (serInt n ++ ['e'])
  | .str s => serStr s.data
  | .list xs => 'l' :: (serL xs ++ ['e'])
  | .map kvs => 'm' :: (serM kvs ++ ['e'])

def serL : List Value → List Char
  | [] => []
  | v :: vs => serV v ++ serL vs

def serM : List (String × Value) → List Char
  | [] => []
  | (k, v) :: r => serStr k.data ++ (serV v ++ serM r)

end

mutual

/-- No string (or mapping key) anywhere in the value contains template
syntax. -/
def noTmplV : Value → Bool
  | .str s => !(hasTmpl s.data)
  | .list xs => noTmplL xs
  | .map kvs => noTmplM kvs
  | _ => true

def noTmplL : List Value → Bool
  | [] => true
  | v :: vs => noTmplV v && noTmplL vs

def noTmplM : List (String × Value) → Bool
  | [] => true
  | (k, v) :: r => !(hasTmpl k.data) && noTmplV v && noTmplM r

end

/-- Count leading `'1'` characters. -/
def parseUnary : List Char → Nat × List Char
  | [] => (0, [])
  | c :: r =>
    if c = '1' then
      match parseUnary r with
      | (n, r2) => (n + 1, r2)
    else (0, c :: r)

def parseStr (cs : List Char) : Option (String × List Char) :=
  match parseUnary cs with
  | (n, r) =>
    match r with
    | c :: r2 =>
      if c = ':' then
        if n ≤ r2.length then some (String.mk (r2.take n), r2.drop n) else none
      else none
    | [] => none

def parseIntCore (r : List Char) : Option (Nat × List Char) :=
  match parseUnary r with
  | (n, r2) =>
    match r2 with
    | c :: r3 => if c = 'e' then some (n, r3) else none
    | [] => none

def parseInt (cs : List Char) : Option (Int × List Char) :=
  match cs with
  | c :: r =>
    if c = '-' then (parseIntCore r).map (fun p => (-(p.1 : Int), p.2))
    else (parseIntCore (c :: r)).map (fun p => ((p.1 : Int), p.2))
  | [] => (parseIntCore []).map (fun p => ((p.1 : Int), p.2))

mutual

/-- Parse a value from text (the model of the external document store's
`parse`), fuelled. -/
def parseV : Nat → List Char → Option (Value × List Char)
  | 0, _ => none
  | _ + 1, [] => none
  | fuel + 1, c :: r =>
    if c = 'n' then some (.null, r)
    else if c = 't' then some (.bool true, r)
    else if c = 'f' then some (.bool false, r)
    else if c = 'i' then (parseInt r).map (fun p => (.int p.1, p.2))
    else if c = 's' then (parseStr r).map (fun p => (.str p.1, p.2))
    else if c = 'l' then (parseItems fuel r).map (fun p => (.list p.1, p.2))
    else if c = 'm' then (parseFields fuel r).map (fun p => (.map p.1, p.2))
    else none

def parseItems : Nat → List Char → Option (List Value × List Char)
  | 0, _ => none
  | _ + 1, [] => none
  | fuel + 1, c :: r =>
    if c = 'e' then some ([], r)
    else
      (parseV fuel (c :: r)).bind fun p =>
        (parseItems fuel p.2).map fun q => (p.1 :: q.1, q.2)

def parseFields : Nat → List Char → Option (List (String × Value) × List Char)
  | 0, _ => none
  | _ + 1, [] => none
  | fuel + 1, c :: r =>
    if c = 'e' then some ([], r)
    else if c = 's' then
      (parseStr r).bind fun pk =>
        (parseV fuel pk.2).bind fun pv =>
          (parseFields fuel pv.2).map fun q => ((pk.1, pv.1) :: q.1, q.2)
    else none

end

/-- Full-input parse (`yaml.round_trip_load` of the serialized text). -/
def docParse (cs : List Char) : Option Value :=
  match parseV (cs.length + 1) cs with
  | some (v, []) => some v
  | _ => none

/-- How the template evaluator renders a context value substituted into
text (Python/Jinja renderings for scalars). -/
def renderVal : Value → List Char
  | .str s => s.data
  | .int n => (toString n).data
  | .bool b => if b then ['T', 'r', 'u', 'e'] else ['F', 'a', 'l', 's', 'e']
  | .null => ['N', 'o', 'n', 'e']
  | v => serV v

/-- Read a variable name up to the closing double brace. -/
def readName : List Char → Option (List Char × List Char)
  | [] => none
  | c :: rest =>
    if c == rbrace then
      match rest with
      | c2 :: rest2 => if c2 == rbrace then some ([], rest2) else none
      | [] => none
    else if c == lbrace then none
    else (readName rest).map (fun p => (c :: p.1, p.2))

/-- Fuelled template-substitution scanner: replace `{{name}}` by the
rendering of `ctx[name]`; an unknown name stays literal template text. -/
def tgo (ctx : OMap) : Nat → List Char → List Char
  | 0, cs => cs
  | _ + 1, [] => []
  | fuel + 1, c1 :: rest =>
    match rest with
    | [] => [c1]
    | c2 :: rest2 =>
      if c1 == lbrace && c2 == lbrace then
        match readName rest2 with
        | some (name, rest3) =>
          match olookup ctx (String.mk name) with
          | some v => renderVal v ++ tgo ctx fuel rest3
          | none => c1 :: (c2 :: tgo ctx fuel rest2)
        | none => c1 :: (c2 :: tgo ctx fuel rest2)
      else c1 :: tgo ctx fuel rest

/-- The template evaluator on text (`Templar.template`), modelled from the
spec's interface contract. -/
def templateChars (ctx : OMap) (cs : List Char) : List Char :=
  tgo ctx cs.length cs

def templateStr (ctx : OMap) (s : String) : String :=
  String.mk (templateChars ctx s.data)

/-- The per-value body of `_process_section` (lines 293-309): strings are
templated, lists and mappings are serialized, templated as text and parsed
back, other scalars pass through.  `none` models a parse failure raised by
the round-trip load. -/
def evalValue (ctx : OMap) : Value → Option Value
  | .str s => some (.str (templateStr ctx s))
  | .list xs => docParse (templateChars ctx (serV (.list xs)))
  | .map kvs => docParse (templateChars ctx (serV (.map kvs)))
  | .int n => some (.int n)
  | .bool b => some (.bool b)
  | .null => some .null

/-- The key loop of `_process_section` (lines 289-312): `sec` is the section
still to process, `vars` the template context, `acc` the processed output.
When `useCb` is set (the defaults pass), the callback re-points the
template context at the processed output after every key. -/
def section_go (useCb : Bool) : OMap → OMap → OMap → Option OMap
  | [], _, acc => some acc
  | (k, v) :: rest, vars, acc =>
    (evalValue vars v).bind fun v2 =>
      section_go useCb rest (if useCb then oset acc k v2 else vars) (oset acc k v2)

/-- `_process_section` with initial template context `vars0`. -/
def process_section (useCb : Bool) (vars0 : OMap) (sec : OMap) : Option OMap :=
  section_go useCb sec vars0 []

/-- `_process_defaults` (lines 314-319): the defaults section evaluated with
the incremental-context callback, starting from an empty context. -/
def process_defaults (defaults : OMap) : Option OMap :=
  process_section true [] defaults

/-- One iteration of the role loop of `_process_services` (lines 338-351).
`gm`/`gd` model the external `get_metadata_from_role` /
`get_defaults_from_role`.  The accumulator is `(processed, service_defaults)`. -/
def roleStep (gm gd : String → OMap) (acc : OMap × OMap) : Value → Option (OMap × OMap)
  | .str name => some (update acc.1 (gm name), update (update acc.2 (gd name)) [])
  | .map m =>
    (match olookup m "role" with
    | some (.str name) =>
      some (update acc.1 (gm name), update (update acc.2 (gd name)) (oremove m "role"))
    | _ => none)
  | _ => none

/-- `service_data.get('roles', [])`. -/
def rolesOf (sd : OMap) : Option (List Value) :=
  match olookup sd "roles" with
  | none => some []
  | some (.list rs) => some rs
  | some _ => none

/-- `re.sub` over one volume string, replacing `$PWD` and the braced form by
the project path (lines 333-337), fuelled scanner. -/
def pwdSubGo (pwd : List Char) : Nat → List Char → List Char
  | 0, cs => cs
  | _ + 1, [] => []
  | fuel + 1, c :: rest =>
    if c = '$' then
      match rest with
      | 'P' :: 'W' :: 'D' :: r => pwd ++ pwdSubGo pwd fuel r
      | c1 :: 'P' :: 'W' :: 'D' :: c2 :: r =>
        if c1 == lbrace && c2 == rbrace then pwd ++ pwdSubGo pwd fuel r
        else c :: pwdSubGo pwd fuel rest
      | _ => c :: pwdSubGo pwd fuel rest
    else c :: pwdSubGo pwd fuel rest

def pwdSub (pwd s : String) : String :=
  String.mk (pwdSubGo pwd.data s.data.length s.data)

/-- The volume rewrite of `_process_services` (lines 333-337). -/
def pwdVolumes (pwd : String) (sd : OMap) : Option OMap :=
  match olookup sd "volumes" with
  | none => some sd
  | some (.list vols) =>
    (vols.mapM (fun v =>
      match v with
      | Value.str s => some (Value.str (pwdSub pwd s))
      | _ => (none : Option Value))).map
      (fun vs => oset sd "volumes" (.list vs))
  | some _ => none

/-- The per-service body of `_process_services` (lines 329-358): substitute
`$PWD` in volumes, fold the role list into `(processed, service_defaults)`
starting from the empty entry and a copy of the baseline defaults, merge the
service's own entry, evaluate it against `service_defaults` only, and attach
`service_defaults` under the reserved `defaults` key. -/
def process_service (gm gd : String → OMap) (pwd : String) (df : OMap) (sd : OMap) :
    Option OMap :=
  (pwdVolumes pwd sd).bind fun sd2 =>
    (rolesOf sd2).bind fun roles =>
      (roles.foldlM (roleStep gm gd) (([] : OMap), df)).bind fun ps =>
        (process_section false ps.2 (update ps.1 sd2)).map fun ev =>
          oset ev "defaults" (Value.map ps.2)

/-- One iteration of the service loop of `_process_services`: a service
entry must be a mapping for `service_data.get` to work. -/
def pserviceStep (gm gd : String → OMap) (pwd : String) (df : OMap) (acc : OMap) :
    String × Value → Option OMap
  | (name, Value.map m) =>
    (process_service gm gd pwd df m).map (fun o => oset acc name (Value.map o))
  | _ => none

/-- `_process_services` (lines 327-359): the per-service outputs are
collected in document order. -/
def process_services (gm gd : String → OMap) (pwd : String) (df : OMap) (svcs : OMap) :
    Option OMap :=
  svcs.foldlM (pserviceStep gm gd pwd df) []

/-! ### Round-trip of the serializer model -/

theorem mk_data (s : String) : String.mk s.data = s := rfl

theorem serV_head (v : Value) :
    ∃ c cs, serV v = c :: cs ∧ ¬ c = 'e' ∧ (c == lbrace) = false := by
  cases v with
  | str s => exact ⟨'s', _, rfl, by decide, by decide⟩
  | int n => exact ⟨'i', _, rfl, by decide, by decide⟩
  | bool b =>
    cases b with
    | true => exact ⟨'t', _, rfl, by decide, by decide⟩
    | false => exact ⟨'f', _, rfl, by decide, by decide⟩
  | null => exact ⟨'n', _, rfl, by decide, by decide⟩
  | list xs => exact ⟨'l', _, rfl, by decide, by decide⟩
  | map kvs => exact ⟨'m', _, rfl, by decide, by decide⟩

theorem parseUnary_replicate (n : Nat) (c : Char) (r : List Char) (h : ¬ c = '1') :
    parseUnary (List.replicate n '1' ++ c :: r) = (n, c :: r) := by
  induction n with
  | zero => simp [parseUnary, h]
  | succ m ih => simp [List.replicate_succ, parseUnary, ih]

theorem parseStr_ser (s : List Char) (rest : List Char) :
    parseStr (List.replicate s.length '1' ++ ':' :: (s ++ rest)) = some (String.mk s, rest) := by
  have h := parseUnary_replicate s.length ':' (s ++ rest) (by decide)
  have hle : s.length ≤ (s ++ rest).length := by simp
  simp [parseStr, h, hle, List.take_left, List.drop_left]

theorem parseIntCore_rep (m : Nat) (rest : List Char) :
    parseIntCore (List.replicate m '1' ++ 'e' :: rest) = some (m, rest) := by
  have h := parseUnary_replicate m 'e' rest (by decide)
  simp [parseIntCore, h]

theorem parseInt_ser (n : Int) (rest : List Char) :
    parseInt (serInt n ++ 'e' :: rest) = some (n, rest) := by
  by_cases hn : n < 0
  · have hser : serInt n ++ 'e' :: rest = '-' :: (List.replicate n.natAbs '1' ++ 'e' :: rest) := by
      simp [serInt, hn]
    rw [hser]
    show (parseIntCore (List.replicate n.natAbs '1' ++ 'e' :: rest)).map
        (fun p => (-(p.1 : Int), p.2)) = some (n, rest)
    rw [parseIntCore_rep]
    have h2 : -((n.natAbs : Nat) : Int) = n := by omega
    show some (-((n.natAbs : Nat) : Int), rest) = some (n, rest)
    rw [h2]
  · have hser : serInt n = List.replicate n.natAbs '1' := by simp [serInt, hn]
    have hcast : ((n.natAbs : Nat) : Int) = n := by omega
    cases hm : n.natAbs with
    | zero =>
      have h0 : serInt n ++ 'e' :: rest = 'e' :: rest := by simp [hser, hm]
      rw [h0]
      show (parseIntCore ('e' :: rest)).map (fun p => ((p.1 : Int), p.2)) = some (n, rest)
      have h3 := parseIntCore_rep 0 rest
      simp only [List.replicate, List.nil_append] at h3
      rw [h3]
      have h4 : ((0 : Nat) : Int) = n := by omega
      show some (((0 : Nat) : Int), rest) = some (n, rest)
      rw [h4]
    | succ m =>
      have h0 : serInt n ++ 'e' :: rest = '1' :: (List.replicate m '1' ++ 'e' :: rest) := by
        simp [hser, hm, List.replicate_succ]
      rw [h0]
      show (parseIntCore ('1' :: (List.replicate m '1' ++ 'e' :: rest))).map
          (fun p => ((p.1 : Int), p.2)) = some (n, rest)
      have h3 := parseIntCore_rep (m + 1) rest
      simp only [List.replicate_succ, List.cons_append] at h3
      rw [h3]
      have h4 : (((m + 1 : Nat)) : Int) = n := by omega
      show some (((m + 1 : Nat) : Int), rest) = some (n, rest)
      rw [h4]

theorem rt_all (fuel : Nat) :
    (∀ (v : Value) (rest : List Char), (serV v).length ≤ fuel →
      parseV fuel (serV v ++ rest) = some (v, rest)) ∧
    (∀ (xs : List Value) (rest : List Char), (serL xs).length + 1 ≤ fuel →
      parseItems fuel (serL xs ++ 'e' :: rest) = some (xs, rest)) ∧
    (∀ (kvs : List (String × Value)) (rest : List Char), (serM kvs).length + 1 ≤ fuel →
      parseFields fuel (serM kvs ++ 'e' :: rest) = some (kvs, rest)) := by
  induction fuel with
  | zero =>
    refine ⟨?_, ?_, ?_⟩
    · intro v rest h
      obtain ⟨c, cs, hser, -, -⟩ := serV_head v
      rw [hser] at h
      simp at h
    · intro xs rest h
      omega
    · intro kvs rest h
      omega
  | succ fuel ih =>
    obtain ⟨ihV, ihL, ihM⟩ := ih
    refine ⟨?_, ?_, ?_⟩
    · intro v rest h
      cases v with
      | null => rfl
      | bool b => cases b <;> rfl
      | int n =>
        have hr : serV (.int n) ++ rest = 'i' :: (serInt n ++ 'e' :: rest) := by
          simp [serV]
        rw [hr]
        show (parseInt (serInt n ++ 'e' :: rest)).map (fun p => (Value.int p.1, p.2)) =
          some (.int n, rest)
        rw [parseInt_ser]
        rfl
      | str s =>
        have hr : serV (.str s) ++ rest =
            's' :: (List.replicate s.data.length '1' ++ ':' :: (s.data ++ rest)) := by
          simp [serV, serStr]
        rw [hr]
        show (parseStr (List.replicate s.data.length '1' ++ ':' :: (s.data ++ rest))).map
            (fun p => (Value.str p.1, p.2)) = some (.str s, rest)
        rw [parseStr_ser, mk_data]
        rfl
      | list xs =>
        have hr : serV (.list xs) ++ rest = 'l' :: (serL xs ++ 'e' :: rest) := by
          simp [serV]
        have hlen : (serL xs).length + 1 ≤ fuel := by
          have h2 : (serV (.list xs)).length = (serL xs).length + 2 := by simp [serV]
          omega
        rw [hr]
        show (parseItems fuel (serL xs ++ 'e' :: rest)).map (fun p => (Value.list p.1, p.2)) =
          some (.list xs, rest)
        rw [ihL xs rest hlen]
        rfl
      | map kvs =>
        have hr : serV (.map kvs) ++ rest = 'm' :: (serM kvs ++ 'e' :: rest) := by
          simp [serV]
        have hlen : (serM kvs).length + 1 ≤ fuel := by
          have h2 : (serV (.map kvs)).length = (serM kvs).length + 2 := by simp [serV]
          omega
        rw [hr]
        show (parseFields fuel (serM kvs ++ 'e' :: rest)).map (fun p => (Value.map p.1, p.2)) =
          some (.map kvs, rest)
        rw [ihM kvs rest hlen]
        rfl
    · intro xs rest h
      cases xs with
      | nil => rfl
      | cons v vs =>
        obtain ⟨c, cs, hser, hce, -⟩ := serV_head v
        have hx : serL (v :: vs) ++ 'e' :: rest = c :: (cs ++ (serL vs ++ 'e' :: rest)) := by
          simp [serL, hser]
        have hlens : (serL (v :: vs)).length = (serV v).length + (serL vs).length := by
          simp [serL]
        have hpos : 1 ≤ (serV v).length := by rw [hser]; simp
        have hlenV : (serV v).length ≤ fuel := by omega
        have hlenL : (serL vs).length + 1 ≤ fuel := by omega
        rw [hx]
        show (if c = 'e' then some (([] : List Value), cs ++ (serL vs ++ 'e' :: rest))
            else (parseV fuel (c :: (cs ++ (serL vs ++ 'e' :: rest)))).bind fun p =>
              (parseItems fuel p.2).map fun q => (p.1 :: q.1, q.2)) = some (v :: vs, rest)
        rw [if_neg hce]
        have hback : c :: (cs ++ (serL vs ++ 'e' :: rest)) = serV v ++ (serL vs ++ 'e' :: rest) := by
          rw [hser]
          simp
        rw [hback, ihV v _ hlenV]
        show (parseItems fuel (serL vs ++ 'e' :: rest)).map (fun q => (v :: q.1, q.2)) =
          some (v :: vs, rest)
        rw [ihL vs rest hlenL]
        rfl
    · intro kvs rest h
      cases kvs with
      | nil => rfl
      | cons kv r =>
        obtain ⟨k, v⟩ := kv
        have hx : serM ((k, v) :: r) ++ 'e' :: rest =
            's' :: (List.replicate k.data.length '1' ++ ':' ::
              (k.data ++ (serV v ++ (serM r ++ 'e' :: rest)))) := by
          simp [serM, serStr]
        have hrw : serM ((k, v) :: r) = serStr k.data ++ (serV v ++ serM r) := rfl
        rw [hrw] at h
        simp only [List.length_append, serStr, List.length_cons, List.length_replicate] at h
        have hlenV : (serV v).length ≤ fuel := by omega
        have hlenM : (serM r).length + 1 ≤ fuel := by omega
        rw [hx]
        show (parseStr (List.replicate k.data.length '1' ++ ':' ::
            (k.data ++ (serV v ++ (serM r ++ 'e' :: rest))))).bind (fun pk =>
              (parseV fuel pk.2).bind fun pv =>
                (parseFields fuel pv.2).map fun q => ((pk.1, pv.1) :: q.1, q.2)) =
          some ((k, v) :: r, rest)
        rw [parseStr_ser, mk_data]
        show (parseV fuel (serV v ++ (serM r ++ 'e' :: rest))).bind (fun pv =>
            (parseFields fuel pv.2).map fun q => ((k, pv.1) :: q.1, q.2)) =
          some ((k, v) :: r, rest)
        rw [ihV v _ hlenV]
        show (parseFields fuel (serM r ++ 'e' :: rest)).map (fun q => ((k, v) :: q.1, q.2)) =
          some ((k, v) :: r, rest)
        rw [ihM r rest hlenM]
        rfl

/-- The document store's parse is a left inverse of serialize (§6). -/
theorem docParse_serV (v : Value) : docParse (serV v) = some v := by
  have h := (rt_all ((serV v).length + 1)).1 v [] (by omega)
  rw [List.append_nil] at h
  simp [docParse, h]

/-! ### Template syntax tracking through serialization -/

theorem ddFrom_append (xs : List Char) : ∀ (p : Bool) (ys : List Char),
    ddFrom p (xs ++ ys) = (ddFrom p xs || ddFrom (endB p xs) ys) := by
  induction xs with
  | nil =>
    intro p ys
    simp [ddFrom, endB]
  | cons c r ih =>
    intro p ys
    simp only [List.cons_append, List.append_eq, ddFrom, endB, ih, Bool.or_assoc]

theorem ddFrom_false_of (cs : List Char) (p : Bool) (h : ddFrom p cs = false) :
    ddFrom false cs = false := by
  cases cs with
  | nil => rfl
  | cons c r =>
    simp only [ddFrom, Bool.false_and, Bool.false_or]
    simp only [ddFrom, Bool.or_eq_false_iff] at h
    exact h.2

theorem ddFrom_nb (xs : List Char) (hnb : ∀ c ∈ xs, (c == lbrace) = false) :
    ∀ p, ddFrom p xs = false := by
  induction xs with
  | nil => intro p; rfl
  | cons c r ih =>
    intro p
    have hc := hnb c (List.mem_cons_self _ _)
    simp [ddFrom, hc, ih (fun c2 hm => hnb c2 (List.mem_cons_of_mem _ hm))]

theorem endB_nb (xs : List Char) (hne : xs ≠ [])
    (hnb : ∀ c ∈ xs, (c == lbrace) = false) : ∀ p, endB p xs = false := by
  induction xs with
  | nil => exact absurd rfl hne
  | cons c r ih =>
    intro p
    cases r with
    | nil =>
      have hc := hnb c (List.mem_cons_self _ _)
      simpa [endB] using hc
    | cons c2 r2 =>
      simp only [endB]
      exact ih (by simp) (fun c3 hm => hnb c3 (List.mem_cons_of_mem _ hm)) (c == lbrace)

theorem serInt_nb (n : Int) : ∀ c ∈ serInt n, (c == lbrace) = false := by
  intro c hc
  simp only [serInt] at hc
  by_cases hn : n < 0
  · rw [if_pos hn] at hc
    rcases List.mem_cons.mp hc with h | h
    · subst h; decide
    · rw [List.eq_of_mem_replicate h]; decide
  · rw [if_neg hn] at hc
    rw [List.eq_of_mem_replicate hc]; decide

theorem endB_false_rep1 (n : Nat) : endB false (List.replicate n '1') = false := by
  cases n with
  | zero => rfl
  | succ m =>
    exact endB_nb _ (by simp) (fun c hc => by rw [List.eq_of_mem_replicate hc]; decide) false

theorem dd_single_e (q : Bool) : ddFrom q ['e'] = false := by
  have : ('e' == lbrace) = false := by decide
  simp [ddFrom, this]

/-- `ddFrom` through the serialized form of a string: tag and length prefix
are brace-free, so only the content and the continuation matter. -/
theorem ddFrom_serStr (s : List Char) (p : Bool) (ys : List Char) :
    ddFrom p (serStr s ++ ys) = (ddFrom false s || ddFrom (endB false s) ys) := by
  have hs : ('s' == lbrace) = false := by decide
  have hcolon : (':' == lbrace) = false := by decide
  have h1 : serStr s ++ ys = 's' :: (List.replicate s.length '1' ++ ':' :: (s ++ ys)) := by
    simp [serStr]
  rw [h1]
  simp only [ddFrom, hs, Bool.and_false, Bool.false_or]
  rw [ddFrom_append]
  rw [ddFrom_nb _ (fun c hc => by rw [List.eq_of_mem_replicate hc]; decide) false]
  rw [endB_false_rep1]
  simp only [Bool.false_or, ddFrom, hcolon, Bool.and_false, Bool.false_and]
  rw [ddFrom_append]

theorem nt_all (fuel : Nat) :
    (∀ v : Value, 2 * (serV v).length ≤ fuel → noTmplV v = true →
      ∀ p, ddFrom p (serV v) = false) ∧
    (∀ xs : List Value, 2 * (serL xs).length + 1 ≤ fuel → noTmplL xs = true →
      ∀ p, ddFrom p (serL xs) = false) ∧
    (∀ kvs : List (String × Value), 2 * (serM kvs).length + 1 ≤ fuel → noTmplM kvs = true →
      ∀ p, ddFrom p (serM kvs) = false) := by
  induction fuel with
  | zero =>
    refine ⟨?_, ?_, ?_⟩
    · intro v hlen _ p
      obtain ⟨c, cs, hser, -, -⟩ := serV_head v
      rw [hser] at hlen
      simp at hlen
    · intro xs hlen
      exact absurd hlen (by omega)
    · intro kvs hlen
      exact absurd hlen (by omega)
  | succ fuel ih =>
    obtain ⟨ihV, ihL, ihM⟩ := ih
    refine ⟨?_, ?_, ?_⟩
    · intro v hlen hnt p
      cases v with
      | null => exact ddFrom_nb _ (by decide) p
      | bool b =>
        cases b
        · exact ddFrom_nb _ (by decide) p
        · exact ddFrom_nb _ (by decide) p
      | int n =>
        refine ddFrom_nb _ ?_ p
        intro c hc
        rcases List.mem_cons.mp hc with h | h
        · subst h; decide
        rcases List.mem_append.mp h with h2 | h2
        · exact serInt_nb n c h2
        · simp only [List.mem_singleton] at h2
          subst h2; decide
      | str s =>
        have hdd : ddFrom false s.data = false := by
          simpa [noTmplV, hasTmpl, Bool.not_eq_true'] using hnt
        show ddFrom p (serStr s.data) = false
        have h0 := ddFrom_serStr s.data p []
        simpa [List.append_nil, hdd, ddFrom] using h0
      | list xs =>
        have hlen2 : 2 * (serL xs).length + 1 ≤ fuel := by
          have h2 : (serV (.list xs)).length = (serL xs).length + 2 := by simp [serV]
          omega
        have hnt2 : noTmplL xs = true := by simpa [noTmplV] using hnt
        have hl : ('l' == lbrace) = false := by decide
        show ddFrom p ('l' :: (serL xs ++ ['e'])) = false
        simp only [ddFrom, hl, Bool.and_false, Bool.false_or]
        rw [ddFrom_append, ihL xs hlen2 hnt2 false, dd_single_e]
        rfl
      | map kvs =>
        have hlen2 : 2 * (serM kvs).length + 1 ≤ fuel := by
          have h2 : (serV (.map kvs)).length = (serM kvs).length + 2 := by simp [serV]
          omega
        have hnt2 : noTmplM kvs = true := by simpa [noTmplV] using hnt
        have hm : ('m' == lbrace) = false := by decide
        show ddFrom p ('m' :: (serM kvs ++ ['e'])) = false
        simp only [ddFrom, hm, Bool.and_false, Bool.false_or]
        rw [ddFrom_append, ihM kvs hlen2 hnt2 false, dd_single_e]
        rfl
    · intro xs hlen hnt p
      cases xs with
      | nil => rfl
      | cons v vs =>
        have hlens : (serL (v :: vs)).length = (serV v).length + (serL vs).length := by
          simp [serL]
        have hpos : 1 ≤ (serV v).length := by
          obtain ⟨c, cs, hser, -, -⟩ := serV_head v
          rw [hser]; simp
        have hlenV : 2 * (serV v).length ≤ fuel := by omega
        have hlenL : 2 * (serL vs).length + 1 ≤ fuel := by omega
        simp only [noTmplL, Bool.and_eq_true] at hnt
        show ddFrom p (serV v ++ serL vs) = false
        rw [ddFrom_append, ihV v hlenV hnt.1 p, ihL vs hlenL hnt.2 _]
        rfl
    · intro kvs hlen hnt p
      cases kvs with
      | nil => rfl
      | cons kv r =>
        obtain ⟨k, v⟩ := kv
        have hrw : serM ((k, v) :: r) = serStr k.data ++ (serV v ++ serM r) := rfl
        rw [hrw] at hlen
        simp only [List.length_append, serStr, List.length_cons, List.length_replicate] at hlen
        have hlenV : 2 * (serV v).length ≤ fuel := by omega
        have hlenM : 2 * (serM r).length + 1 ≤ fuel := by omega
        simp only [noTmplM, Bool.and_eq_true] at hnt
        obtain ⟨⟨h1, h2⟩, h3⟩ := hnt
        have hkdd : ddFrom false k.data = false := by
          simpa [hasTmpl, Bool.not_eq_true'] using h1
        show ddFrom p (serStr k.data ++ (serV v ++ serM r)) = false
        rw [ddFrom_serStr, hkdd, ddFrom_append, ihV v hlenV h2 _, ihM r hlenM h3 _]
        rfl

/-- A value containing no template syntax serializes to text containing no
template syntax. -/
theorem serV_noTmpl (v : Value) (h : noTmplV v = true) : hasTmpl (serV v) = false :=
  (nt_all (2 * (serV v).length)).1 v (le_refl _) h false

/-- The template evaluator is the identity on text containing no template
syntax. -/
theorem tgo_id (fuel : Nat) : ∀ (cs : List Char) (ctx : OMap),
    cs.length ≤ fuel → ddFrom false cs = false → tgo ctx fuel cs = cs := by
  induction fuel with
  | zero =>
    intro cs ctx _ _
    rfl
  | succ fuel ih =>
    intro cs ctx hlen hdd
    cases cs with
    | nil => rfl
    | cons c1 rest =>
      cases rest with
      | nil => rfl
      | cons c2 rest2 =>
        have hdd2 : ddFrom (c1 == lbrace) (c2 :: rest2) = false := by
          simpa [ddFrom] using hdd
        have hcond : (c1 == lbrace && c2 == lbrace) = false := by
          simp only [ddFrom, Bool.or_eq_false_iff] at hdd2
          exact hdd2.1
        have hrest : ddFrom false (c2 :: rest2) = false :=
          ddFrom_false_of _ _ hdd2
        show (if c1 == lbrace && c2 == lbrace then _ else c1 :: tgo ctx fuel (c2 :: rest2)) =
          c1 :: c2 :: rest2
        rw [if_neg (by simp [hcond])]
        have hlen2 : (c2 :: rest2).length ≤ fuel := by
          simp only [List.length_cons] at hlen ⊢
          omega
        rw [ih (c2 :: rest2) ctx hlen2 hrest]

theorem templateChars_id (ctx : OMap) (cs : List Char) (h : hasTmpl cs = false) :
    templateChars ctx cs = cs :=
  tgo_id cs.length cs ctx (le_refl _) h

/-- The per-value evaluation rule is the identity on template-free values
(strings pass the evaluator unchanged, structures survive the
serialize/evaluate/parse round trip, other scalars pass through). -/
theorem evalValue_id (ctx : OMap) (v : Value) (h : noTmplV v = true) :
    evalValue ctx v = some v := by
  cases v with
  | str s =>
    have hdd : hasTmpl s.data = false := by
      simpa [noTmplV, Bool.not_eq_true'] using h
    simp only [evalValue, templateStr]
    rw [templateChars_id ctx s.data hdd, mk_data]
  | list xs =>
    simp only [evalValue]
    rw [templateChars_id ctx _ (serV_noTmpl _ h), docParse_serV]
  | map kvs =>
    simp only [evalValue]
    rw [templateChars_id ctx _ (serV_noTmpl _ h), docParse_serV]
  | int n => rfl
  | bool b => rfl
  | null => rfl

/-! ### Helper lemmas for the claim theorems -/

theorem oset_any_key {α : Type} (m : List (String × α)) (k c : String) (v : α) :
    (oset m k v).any (fun p => p.1 == c) = (m.any (fun p => p.1 == c) || (k == c)) := by
  induction m with
  | nil => simp [oset]
  | cons q r ih =>
    obtain ⟨k0, v0⟩ := q
    by_cases h : k0 = k
    · subst h
      simp only [oset, if_pos rfl, List.any_cons]
      cases hkc : (k0 == c) <;> cases hr : r.any (fun p => p.1 == c) <;> simp [hkc, hr]
    · simp only [oset, if_neg h, List.any_cons, ih, Bool.or_assoc]

theorem oset_nodup {α : Type} (m : List (String × α)) (k : String) (v : α)
    (h : nodupKeys m = true) : nodupKeys (oset m k v) = true := by
  induction m with
  | nil => simp [oset, nodupKeys]
  | cons q r ih =>
    obtain ⟨k0, v0⟩ := q
    simp only [nodupKeys, Bool.and_eq_true, Bool.not_eq_true'] at h
    by_cases hk : k0 = k
    · subst hk
      simp only [oset, if_pos rfl, nodupKeys, Bool.and_eq_true, Bool.not_eq_true']
      exact h
    · simp only [oset, if_neg hk, nodupKeys, Bool.and_eq_true, Bool.not_eq_true']
      refine ⟨?_, ih h.2⟩
      rw [oset_any_key, h.1]
      simpa using fun hh => hk hh.symm

theorem env_nodup (environ : List (String × String)) :
    nodupKeys (get_environment_variables environ) = true := by
  suffices h : ∀ acc : OMap, nodupKeys acc = true →
      nodupKeys (environ.foldl (fun acc p =>
        if sStartsWith p.1 "AC_" then oset acc (sToLower (sDrop p.1 3)) (Value.str p.2)
        else acc) acc) = true by
    exact h [] rfl
  induction environ with
  | nil => intro acc hacc; exact hacc
  | cons q r ih =>
    intro acc hacc
    simp only [List.foldl_cons]
    by_cases hq : sStartsWith q.1 "AC_" = true
    · rw [if_pos hq]
      exact ih _ (oset_nodup _ _ _ hacc)
    · rw [if_neg hq]
      exact ih _ hacc

theorem foldlM_reader (reader : String → Except LoadErr OMap)
    (names : List String) (contents : List OMap)
    (hf : List.Forall₂ (fun f m => reader f = Except.ok m) names contents) :
    ∀ d : OMap,
      names.foldlM (fun acc f => (reader f).map (fun vf => update acc vf)) d =
        .ok (contents.foldl update d) := by
  induction hf with
  | nil => intro d; rfl
  | cons h t ih =>
    intro d
    simp only [List.foldlM_cons, h, Except.map, List.foldl_cons]
    exact ih (update d _)

/-- Modelled from the spec (§4.2): the layering contract — environment
variables take the highest precedence, then the var files (later files
overwriting earlier), then the document defaults. -/
def specLayeredLookup (d : OMap) (vfs : List OMap) (env : OMap) (k : String) : Option Value :=
  ((olookup env k) <|> ((vfs.reverse.findSome? fun vf => olookup vf k) <|> olookup d k))

/-- Example variables-file reader with one known file. -/
def readerEx : String → Except LoadErr OMap := fun f =>
  if f = "vars.yml" then .ok [("a", Value.int 2), ("b", Value.int 2)] else .error .crash

/-- Reader that fails on every file (never consulted in the examples using
it). -/
def readerCrash : String → Except LoadErr OMap := fun _ => .error .crash

/-- Example role store: role R1 declares default v=1, role R2 declares
default v=2, metadata empty. -/
def gdEx : String → OMap := fun n =>
  if n = "R1" then [("v", Value.int 1)] else if n = "R2" then [("v", Value.int 2)] else []

def gmEx : String → OMap := fun _ => []

/-- Example filesystem: the variables file exists under the project base
path only. -/
def fsEx : String → Option String := fun p =>
  if p = "/base/vars.yml" then some "a: 2" else none

def parseYEx : String → Except String OMap := fun s =>
  if s = "a: 2" then .ok [("a", Value.int 2)] else .error "bad"

def parseJEx : String → Except String OMap := fun _ => .error "not json"

/-- Splitting the defaults pass at any key: the keys before it are processed
first, and the key's value is evaluated against exactly that intermediate
context. -/
theorem section_go_true_split (l1 l2 : OMap) : ∀ c : OMap,
    section_go true (l1 ++ l2) c c =
      (section_go true l1 c c).bind (fun c2 => section_go true l2 c2 c2) := by
  induction l1 with
  | nil => intro c; rfl
  | cons q r ih =>
    intro c
    obtain ⟨k, v⟩ := q
    simp only [List.cons_append, section_go]
    cases evalValue c v with
    | none => rfl
    | some v2 =>
      simp only [Option.some_bind]
      exact ih (oset c k v2)

/-- Inversion of `process_service`: the evaluated entry is produced from the
service's own data and the baseline defaults only, evaluated against the
final `service_defaults`, which is then attached under `defaults`. -/
theorem process_service_inv (gm gd : String → OMap) (pwd : String) (df sd o : OMap)
    (h : process_service gm gd pwd df sd = some o) :
    ∃ sd2 roles pr sdef ev,
      pwdVolumes pwd sd = some sd2 ∧ rolesOf sd2 = some roles ∧
      roles.foldlM (roleStep gm gd) (([] : OMap), df) = some (pr, sdef) ∧
      process_section false sdef (update pr sd2) = some ev ∧
      o = oset ev "defaults" (Value.map sdef) := by
  simp only [process_service, Option.bind_eq_some, Option.map_eq_some'] at h
  obtain ⟨sd2, h1, roles, h2, ⟨pr, sdef⟩, h3, ev, h4, h5⟩ := h
  exact ⟨sd2, roles, pr, sdef, ev, h1, h2, h3, h4, h5.symm⟩

theorem pservices_fold_notmem (gm gd : String → OMap) (pwd : String) (df : OMap) :
    ∀ (svcs : OMap) (acc out : OMap),
    svcs.foldlM (pserviceStep gm gd pwd df) acc = some out →
    ∀ name, svcs.any (fun p => p.1 == name) = false → olookup out name = olookup acc name := by
  intro svcs
  induction svcs with
  | nil =>
    intro acc out h name _
    simp only [List.foldlM_nil] at h
    cases h
    rfl
  | cons q r ih =>
    intro acc out h name hany
    obtain ⟨k0, v0⟩ := q
    simp only [List.any_cons, Bool.or_eq_false_iff, beq_eq_false_iff_ne] at hany
    simp only [List.foldlM_cons] at h
    cases v0 with
    | map m =>
      simp only [pserviceStep] at h
      cases hps : process_service gm gd pwd df m with
      | none => rw [hps] at h; simp at h
      | some o =>
        rw [hps] at h
        simp only [Option.map_some', Option.some_bind] at h
        rw [ih _ _ h name (by simpa [beq_eq_false_iff_ne] using hany.2), oset_lookup]
        rw [if_neg hany.1]
    | str s => simp [pserviceStep] at h
    | int n => simp [pserviceStep] at h
    | bool b => simp [pserviceStep] at h
    | null => simp [pserviceStep] at h
    | list xs => simp [pserviceStep] at h

theorem pservices_fold_mem (gm gd : String → OMap) (pwd : String) (df : OMap) :
    ∀ (svcs : OMap) (acc out : OMap),
    svcs.foldlM (pserviceStep gm gd pwd df) acc = some out →
    nodupKeys svcs = true →
    ∀ (name : String) (m : OMap), (name, Value.map m) ∈ svcs →
    ∃ o, process_service gm gd pwd df m = some o ∧ olookup out name = some (Value.map o) := by
  intro svcs
  induction svcs with
  | nil =>
    intro acc out _ _ name m hm
    simp at hm
  | cons q r ih =>
    intro acc out h hnd name m hm
    obtain ⟨k0, v0⟩ := q
    simp only [nodupKeys, Bool.and_eq_true, Bool.not_eq_true'] at hnd
    simp only [List.foldlM_cons] at h
    rcases List.mem_cons.mp hm with hhead | htail
    · cases hhead
      simp only [pserviceStep] at h
      cases hps : process_service gm gd pwd df m with
      | none => rw [hps] at h; simp at h
      | some o =>
        rw [hps] at h
        simp only [Option.map_some', Option.some_bind] at h
        refine ⟨o, rfl, ?_⟩
        rw [pservices_fold_notmem gm gd pwd df r _ _ h name hnd.1, oset_lookup, if_pos rfl]
    · cases v0 with
      | map m0 =>
        simp only [pserviceStep] at h
        cases hps : process_service gm gd pwd df m0 with
        | none => rw [hps] at h; simp at h
        | some o0 =>
          rw [hps] at h
          simp only [Option.map_some', Option.some_bind] at h
          exact ih _ _ h hnd.2 name m htail
      | str s => simp [pserviceStep] at h
      | int n => simp [pserviceStep] at h
      | bool b => simp [pserviceStep] at h
      | null => simp [pserviceStep] at h
      | list xs => simp [pserviceStep] at h

theorem validate_keys_shape (rem : OMap) : ∀ (acc : OMap) (w : Bool),
    (∃ res, validate_keys rem acc w = .ok res) ∨
    (∃ msg, validate_keys rem acc w = .error (.configError msg)) := by
  induction rem with
  | nil => intro acc w; exact Or.inl ⟨(acc, w), rfl⟩
  | cons q r ih =>
    intro acc w
    obtain ⟨k, v⟩ := q
    simp only [validate_keys]
    split
    · split
      · split
        · split
          · exact ih acc true
          · split
            · exact ih acc w
            · exact Or.inr ⟨_, rfl⟩
        · exact Or.inr ⟨_, rfl⟩
      · split
        · exact ih _ w
        · exact ih acc w
    · exact Or.inr ⟨_, rfl⟩

theorem validate_keys_ok_all (rem : OMap) : ∀ (acc : OMap) (w : Bool) (res : OMap × Bool),
    validate_keys rem acc w = .ok res →
    (∀ p ∈ rem, TOP_LEVEL_WHITELIST.contains p.1 = true) ∧
    (∀ v, ("version", v) ∈ rem → v = Value.str "1" ∨ v = Value.str "2") := by
  induction rem with
  | nil =>
    intro acc w res _
    constructor
    · intro p hp
      simp at hp
    · intro v hv
      simp at hv
  | cons q r ih =>
    intro acc w res h
    obtain ⟨k, v0⟩ := q
    simp only [validate_keys] at h
    split at h
    case isTrue hw =>
      split at h
      case isTrue hver =>
        split at h
        case h_1 s =>
          split at h
          case isTrue hs1 =>
            obtain ⟨ih1, ih2⟩ := ih acc true res h
            subst hver
            subst hs1
            refine ⟨?_, ?_⟩
            · intro p hp
              rcases List.mem_cons.mp hp with hh | ht
              · subst hh; exact hw
              · exact ih1 p ht
            · intro v hv
              rcases List.mem_cons.mp hv with hh | ht
              · injection hh with h1 h2
                subst h2
                exact Or.inl rfl
              · exact ih2 v ht
          case isFalse hs1 =>
            split at h
            case isTrue hs2 =>
              obtain ⟨ih1, ih2⟩ := ih acc w res h
              subst hver
              subst hs2
              refine ⟨?_, ?_⟩
              · intro p hp
                rcases List.mem_cons.mp hp with hh | ht
                · subst hh; exact hw
                · exact ih1 p ht
              · intro v hv
                rcases List.mem_cons.mp hv with hh | ht
                · injection hh with h1 h2
                  subst h2
                  exact Or.inr rfl
                · exact ih2 v ht
            case isFalse hs2 => exact absurd h (by simp)
        case h_2 hvstr => exact absurd h (by simp)
      case isFalse hver =>
        have hstep : ∀ acc2, validate_keys r acc2 w = .ok res →
            (∀ p ∈ (k, v0) :: r, TOP_LEVEL_WHITELIST.contains p.1 = true) ∧
            (∀ v, ("version", v) ∈ (k, v0) :: r → v = Value.str "1" ∨ v = Value.str "2") := by
          intro acc2 h2
          obtain ⟨ih1, ih2⟩ := ih acc2 w res h2
          refine ⟨?_, ?_⟩
          · intro p hp
            rcases List.mem_cons.mp hp with hh | ht
            · subst hh; exact hw
            · exact ih1 p ht
          · intro v hv
            rcases List.mem_cons.mp hv with hh | ht
            · injection hh with h1 h2
              exact absurd h1.symm hver
            · exact ih2 v ht
        split at h
        · exact hstep _ h
        · exact hstep _ h
    case isFalse hw => exact absurd h (by simp)

theorem validate_keys_warn (rem : OMap) : ∀ (acc : OMap) (w : Bool) (res : OMap × Bool),
    validate_keys rem acc w = .ok res →
    (w = true → res.2 = true) ∧ (("version", Value.str "1") ∈ rem → res.2 = true) := by
  induction rem with
  | nil =>
    intro acc w res h
    cases h
    constructor
    · intro hw; exact hw
    · intro hv; simp at hv
  | cons q r ih =>
    intro acc w res h
    obtain ⟨k, v0⟩ := q
    simp only [validate_keys] at h
    split at h
    case isTrue hw =>
      split at h
      case isTrue hver =>
        split at h
        case h_1 s =>
          split at h
          case isTrue hs1 =>
            obtain ⟨ih1, _⟩ := ih acc true res h
            exact ⟨fun _ => ih1 rfl, fun _ => ih1 rfl⟩
          case isFalse hs1 =>
            split at h
            case isTrue hs2 =>
              obtain ⟨ih1, ih2⟩ := ih acc w res h
              refine ⟨ih1, ?_⟩
              intro hv
              rcases List.mem_cons.mp hv with hh | ht
              · injection hh with h1 h2
                injection h2 with h3
                exact absurd h3.symm hs1
              · exact ih2 ht
            case isFalse hs2 => exact absurd h (by simp)
        case h_2 hvstr => exact absurd h (by simp)
      case isFalse hver =>
        have hstep : ∀ acc2, validate_keys r acc2 w = .ok res →
            (w = true → res.2 = true) ∧
            (("version", Value.str "1") ∈ (k, v0) :: r → res.2 = true) := by
          intro acc2 h2
          obtain ⟨ih1, ih2⟩ := ih acc2 w res h2
          refine ⟨ih1, ?_⟩
          intro hv
          rcases List.mem_cons.mp hv with hh | ht
          · injection hh with h1 h2
            exact absurd h1.symm hver
          · exact ih2 ht
        split at h
        · exact hstep _ h
        · exact hstep _ h
    case isFalse hw => exact absurd h (by simp)

theorem validate_keys_acc (rem : OMap) : ∀ (acc : OMap) (w : Bool) (res : OMap × Bool),
    validate_keys rem acc w = .ok res →
    ∀ name, rem.any (fun p => p.1 == name) = false → olookup res.1 name = olookup acc name := by
  induction rem with
  | nil =>
    intro acc w res h name _
    cases h
    rfl
  | cons q r ih =>
    intro acc w res h name hany
    obtain ⟨k, v0⟩ := q
    simp only [List.any_cons, Bool.or_eq_false_iff, beq_eq_false_iff_ne] at hany
    simp only [validate_keys] at h
    split at h
    case isTrue hw =>
      split at h
      case isTrue hver =>
        split at h
        case h_1 s =>
          split at h
          case isTrue hs1 =>
            exact ih acc true res h name (by simpa [beq_eq_false_iff_ne] using hany.2)
          case isFalse hs1 =>
            split at h
            case isTrue hs2 =>
              exact ih acc w res h name (by simpa [beq_eq_false_iff_ne] using hany.2)
            case isFalse hs2 => exact absurd h (by simp)
        case h_2 hvstr => exact absurd h (by simp)
      case isFalse hver =>
        split at h
        · rw [ih _ w res h name (by simpa [beq_eq_false_iff_ne] using hany.2), oset_lookup]
          rw [if_neg hany.1]
        · exact ih acc w res h name (by simpa [beq_eq_false_iff_ne] using hany.2)
    case isFalse hw => exact absurd h (by simp)

theorem validate_keys_null (rem : OMap) : ∀ (acc : OMap) (w : Bool) (res : OMap × Bool),
    validate_keys rem acc w = .ok res → nodupKeys rem = true →
    ∀ k, (k, Value.null) ∈ rem → ¬ k = "version" → olookup res.1 k = some (Value.map []) := by
  induction rem with
  | nil =>
    intro acc w res _ _ k hk
    simp at hk
  | cons q r ih =>
    intro acc w res h hnd k hk hkver
    obtain ⟨k0, v0⟩ := q
    simp only [nodupKeys, Bool.and_eq_true, Bool.not_eq_true'] at hnd
    rcases List.mem_cons.mp hk with hh | ht
    · cases hh
      simp only [validate_keys, if_neg hkver] at h
      split at h
      case isTrue hw =>
        rw [validate_keys_acc r _ w res h k hnd.1, oset_lookup, if_pos rfl]
      case isFalse hw => exact absurd h (by simp)
    · simp only [validate_keys] at h
      split at h
      case isTrue hw =>
        split at h
        case isTrue hver =>
          split at h
          case h_1 s =>
            split at h
            case isTrue hs1 => exact ih acc true res h hnd.2 k ht hkver
            case isFalse hs1 =>
              split at h
              case isTrue hs2 => exact ih acc w res h hnd.2 k ht hkver
              case isFalse hs2 => exact absurd h (by simp)
          case h_2 hvstr => exact absurd h (by simp)
        case isFalse hver =>
          split at h
          · exact ih _ w res h hnd.2 k ht hkver
          · exact ih acc w res h hnd.2 k ht hkver
      case isFalse hw => exact absurd h (by simp)

theorem except_bind_pure {ε α β : Type} (x : Except ε α) (f : α → β) :
    (x.bind fun a => Except.ok (f a)) = x.map f := by
  cases x <;> rfl

theorem resolve_defaults_value_eq (reader : String → Except LoadErr OMap)
    (cli : Option (List String)) (environ : List (String × String))
    (d : OMap) (names : List String) (config : OMap)
    (hd : olookup config "defaults" = some (Value.map d))
    (hn : varFileNames cli config = .ok names) :
    resolve_defaults_value reader cli environ config =
      (names.foldlM (fun acc f => (reader f).map (fun vf => update acc vf)) d).map
        (fun d1 => update d1 (get_environment_variables environ)) := by
  simp only [resolve_defaults_value, hd, hn]
  exact except_bind_pure _ _

/-! ### Claim theorems -/

/-- C1: `_resolve_defaults` layers the document defaults, then each var
file's top-level keys in listed order, then the `AC_`-environment variables
(prefix stripped, lowercased, raw string values); later layers overwrite
same-named keys and non-conflicting keys survive.  In particular base
defaults (a ↦ 1), a var file (a ↦ 2, b ↦ 2) and `AC_A=3` resolve to
(a ↦ "3", b ↦ 2). -/
theorem resolve_defaults_layering :
    (∀ (reader : String → Except LoadErr OMap) (names : List String) (contents : List OMap)
      (d : OMap) (environ : List (String × String)) (k : String),
      List.Forall₂ (fun f m => reader f = Except.ok m) names contents →
      (∀ m ∈ contents, nodupKeys m = true) →
      ¬ names = [] →
      ∃ res, resolve_defaults_value reader (some names) environ
          [("defaults", Value.map d)] = .ok res ∧
        olookup res k = specLayeredLookup d contents (get_environment_variables environ) k) ∧
    resolve_defaults_value readerEx (some ["vars.yml"]) [("AC_A", "3")]
        [("defaults", Value.map [("a", Value.int 1)])] =
      .ok [("a", Value.str "3"), ("b", Value.int 2)] := by
  constructor
  · intro reader names contents d environ k hf hnd hne
    have hn : varFileNames (some names) [("defaults", Value.map d)] = .ok names := by
      cases names with
      | nil => exact absurd rfl hne
      | cons a l => rfl
    refine ⟨update (contents.foldl update d) (get_environment_variables environ), ?_, ?_⟩
    · rw [resolve_defaults_value_eq reader (some names) environ d names
            [("defaults", Value.map d)] rfl hn,
        foldlM_reader reader names contents hf d]
      rfl
    · rw [update_lookup _ _ _ (env_nodup environ), foldl_update_lookup contents d k hnd]
      rfl
  · rfl

/-- C1 witness: the layering theorem applied at the concrete base defaults
(a ↦ 1), var file (a ↦ 2, b ↦ 2), environment `AC_A=3` and key `a`. -/
theorem resolve_defaults_layering_witness :
    ∃ res, resolve_defaults_value readerEx (some ["vars.yml"]) [("AC_A", "3")]
        [("defaults", Value.map [("a", Value.int 1)])] = .ok res ∧
      olookup res "a" = specLayeredLookup [("a", Value.int 1)]
        [[("a", Value.int 2), ("b", Value.int 2)]]
        (get_environment_variables [("AC_A", "3")]) "a" :=
  resolve_defaults_layering.1 readerEx ["vars.yml"] [[("a", Value.int 2), ("b", Value.int 2)]]
    [("a", Value.int 1)] [("AC_A", "3")] "a"
    (List.Forall₂.cons rfl List.Forall₂.nil)
    (by
      intro m hm
      rw [List.mem_singleton] at hm
      rw [hm]
      rfl)
    (by decide)

/-- C2: the defaults pass walks the keys in document order, evaluating each
value against exactly the context of the already-evaluated earlier keys and
extending that context with the evaluated key; so a later default sees an
earlier default's evaluated value while a forward reference stays literal
template text: `(x ↦ "1", y ↦ "{{x}}-2")` yields `y = "1-2"`, while
`(y ↦ "{{x}}-2", x ↦ "1")` leaves `y` unresolved. -/
theorem defaults_incremental_context :
    (∀ (pre : OMap) (k : String) (v : Value) (post : OMap),
      process_defaults (pre ++ (k, v) :: post) =
        (process_defaults pre).bind (fun ctx =>
          (evalValue ctx v).bind (fun v2 =>
            section_go true post (oset ctx k v2) (oset ctx k v2)))) ∧
    process_defaults [("x", Value.str "1"), ("y", Value.str "\x7b\x7bx\x7d\x7d-2")] =
      some [("x", Value.str "1"), ("y", Value.str "1-2")] ∧
    process_defaults [("y", Value.str "\x7b\x7bx\x7d\x7d-2"), ("x", Value.str "1")] =
      some [("y", Value.str "\x7b\x7bx\x7d\x7d-2"), ("x", Value.str "1")] := by
  refine ⟨?_, rfl, rfl⟩
  intro pre k v post
  have h := section_go_true_split pre ((k, v) :: post) []
  simp only [process_defaults, process_section]
  rw [h]
  rfl

/-- C3 counterexample (claim as stated is false on the code): a malformed
document is reported through the same `AnsibleContainerConfigException`
class that carries all schema violations (lines 123-124 raise
`AnsibleContainerConfigException`, not a separate parse-error class), so
there is no ParseError distinct from ConfigError. -/
theorem parse_error_same_class :
    set_env id [] none readerCrash [] "/p" "prod"
        (some (.error "mapping values are not allowed here")) =
      .error (.configError "Parsing container.yml - mapping values are not allowed here") ∧
    LoadErr.isConfigError
        (.configError "Parsing container.yml - mapping values are not allowed here") = true ∧
    set_env id [] none readerCrash [] "/p" "prod" (some (.ok [("bogus", Value.int 1)])) =
      .error (.configError "Missing expected key 'services'") ∧
    LoadErr.isConfigError (.configError "Missing expected key 'services'") = true :=
  ⟨rfl, rfl, rfl, rfl⟩

/-- C3 (amended): an absent document file fails with the NotInitialized
class; a malformed document fails with the ConfigError class (message
prefixed `Parsing container.yml - `), the same class used for schema
violations; only these two classes are distinguishable by the caller. -/
theorem error_taxonomy :
    (∀ (expand : String → String) environ cli (reader : String → Except LoadErr OMap) rem bp,
      set_env expand environ cli reader rem bp "prod" none = .error .notInitialized) ∧
    (∀ (expand : String → String) environ cli (reader : String → Except LoadErr OMap) rem bp,
      set_env expand environ cli reader rem bp "dev" none = .error .notInitialized) ∧
    (∀ (expand : String → String) environ cli (reader : String → Except LoadErr OMap) rem bp e,
      set_env expand environ cli reader rem bp "prod" (some (.error e)) =
        .error (.configError ("Parsing container.yml - " ++ e))) ∧
    (∀ (expand : String → String) environ cli (reader : String → Except LoadErr OMap) rem bp e,
      set_env expand environ cli reader rem bp "dev" (some (.error e)) =
        .error (.configError ("Parsing container.yml - " ++ e))) ∧
    (∀ (expand : String → String) environ cli (reader : String → Except LoadErr OMap) rem bp,
      set_env expand environ cli reader rem bp "prod" (some (.ok [("bogus", Value.int 1)])) =
        .error (.configError "Missing expected key 'services'")) ∧
    (∀ msg, LoadErr.notInitialized ≠ LoadErr.configError msg) :=
  ⟨fun _ _ _ _ _ _ => rfl, fun _ _ _ _ _ _ => rfl, fun _ _ _ _ _ _ _ => rfl,
   fun _ _ _ _ _ _ _ => rfl, fun _ _ _ _ _ _ => rfl, fun _ h => by cases h⟩

/-- C4: the code resolves a variables file against the process working
directory only (`path.abspath`, line 210) and never consults `base_path` or
`base_path/ansible`, contradicting its own docstring (lines 205-206) and
the spec: with the file present at `/base/vars.yml` and the working
directory `/cwd`, the lookup fails with the ConfigError naming `/cwd`,
while running from `/base` (where abspath happens to coincide) finds it. -/
theorem var_file_lookup_bug :
    fsEx "/base/vars.yml" = some "a: 2" ∧
    get_variables_from_file fsEx parseYEx parseJEx "/cwd" "vars.yml" =
      .error (.configError
        "Variables file \"vars.yml\" not found. (I looked in \"/cwd\" for it.)") ∧
    get_variables_from_file fsEx parseYEx parseJEx "/base" "vars.yml" =
      .ok [("a", Value.int 2)] :=
  ⟨rfl, rfl, rfl⟩

/-- C6: the generic value-evaluation rule of `_process_section` is the
identity on every value containing no template syntax — including nested
lists and mappings, which survive the serialize/evaluate/parse round trip —
and non-string scalars (numeric, boolean, null) pass through unchanged for
every context without entering the evaluator. -/
theorem roundtrip_noop :
    (∀ (ctx : OMap) (v : Value), noTmplV v = true → evalValue ctx v = some v) ∧
    (∀ (ctx : OMap) (n : Int), evalValue ctx (Value.int n) = some (Value.int n)) ∧
    (∀ (ctx : OMap) (b : Bool), evalValue ctx (Value.bool b) = some (Value.bool b)) ∧
    (∀ ctx : OMap, evalValue ctx Value.null = some Value.null) :=
  ⟨evalValue_id, fun _ _ => rfl, fun _ _ => rfl, fun _ => rfl⟩

/-- C6 witness: the identity theorem applied to a concrete nested
template-free value under the empty context. -/
theorem roundtrip_noop_witness :
    noTmplV (Value.map [("a", Value.list [Value.int 1, Value.str "x"]), ("b", Value.null)]) =
      true ∧
    evalValue [] (Value.map [("a", Value.list [Value.int 1, Value.str "x"]), ("b", Value.null)]) =
      some (Value.map [("a", Value.list [Value.int 1, Value.str "x"]), ("b", Value.null)]) :=
  ⟨rfl, roundtrip_noop.1 [] _ rfl⟩

/-- C9: `dev_overrides` is popped from a mapping service entry in both
modes and its keys are merged into the entry (overwriting same-named keys)
exactly in dev mode; a full dev-mode load of a service with
`dev_overrides: (image ↦ dev-img)` and own `image: prod-img` yields
`image = dev-img`, a prod-mode load yields `image = prod-img`, and
`dev_overrides` is absent from the result in both. -/
theorem dev_overrides_handling :
    (∀ (mode : String) (sc : OMap), ¬ mode = "dev" →
      apply_dev_overrides mode sc = .ok (oremove sc "dev_overrides")) ∧
    (∀ (sc m : OMap), olookup sc "dev_overrides" = some (Value.map m) →
      apply_dev_overrides "dev" sc = .ok (update (oremove sc "dev_overrides") m)) ∧
    (∀ sc : OMap, olookup sc "dev_overrides" = none →
      apply_dev_overrides "dev" sc = .ok (oremove sc "dev_overrides")) ∧
    set_env id [] none readerCrash [] "/proj" "dev"
        (some (.ok [("services", Value.map [("web", Value.map
          [("image", Value.str "prod-img"),
           ("dev_overrides", Value.map [("image", Value.str "dev-img")])])])])) =
      .ok [("services", Value.map [("web", Value.map [("image", Value.str "dev-img")])]),
           ("settings", Value.map [("pwd", Value.str "/proj")]),
           ("defaults", Value.map [])] ∧
    set_env id [] none readerCrash [] "/proj" "prod"
        (some (.ok [("services", Value.map [("web", Value.map
          [("image", Value.str "prod-img"),
           ("dev_overrides", Value.map [("image", Value.str "dev-img")])])])])) =
      .ok [("services", Value.map [("web", Value.map [("image", Value.str "prod-img")])]),
           ("settings", Value.map [("pwd", Value.str "/proj")]),
           ("defaults", Value.map [])] := by
  refine ⟨?_, ?_, ?_, rfl, rfl⟩
  · intro mode sc hmode
    have hbe : (mode == "dev") = false := by
      simpa [beq_eq_false_iff_ne] using hmode
    simp [apply_dev_overrides, hbe]
  · intro sc m hm
    simp [apply_dev_overrides, hm]
  · intro sc hm
    simp only [apply_dev_overrides, hm, Option.getD_none]
    rfl

/-- C9 witness: the dev-merge clause applied at a concrete service entry. -/
theorem dev_overrides_handling_witness :
    apply_dev_overrides "dev"
        [("image", Value.str "prod-img"),
         ("dev_overrides", Value.map [("image", Value.str "dev-img")])] =
      .ok (update (oremove
        [("image", Value.str "prod-img"),
         ("dev_overrides", Value.map [("image", Value.str "dev-img")])] "dev_overrides")
        [("image", Value.str "dev-img")]) :=
  dev_overrides_handling.2.1 _ _ rfl

/-- C5: in the role loop, roles are applied in list order; a role's
declared defaults are merged into `service_defaults` (later roles
overwriting earlier sources) and its invocation arguments are merged
immediately after, overwriting that role's own defaults; concretely, roles
R1 (v ↦ 1) then R2 (v ↦ 2) give the service default v = 2, and invoking R2
with argument v ↦ 9 gives v = 9. -/
theorem role_precedence :
    (∀ (gm gd : String → OMap) (pr sdef m : OMap) (name k : String),
      olookup m "role" = some (Value.str name) →
      nodupKeys (oremove m "role") = true →
      nodupKeys (gd name) = true →
      roleStep gm gd (pr, sdef) (Value.map m) =
        some (update pr (gm name), update (update sdef (gd name)) (oremove m "role")) ∧
      olookup (update (update sdef (gd name)) (oremove m "role")) k =
        ((olookup (oremove m "role") k) <|> ((olookup (gd name) k) <|> olookup sdef k))) ∧
    (∀ (gd : String → OMap) (sdef : OMap) (name k : String),
      nodupKeys (gd name) = true →
      olookup (update sdef (gd name)) k = ((olookup (gd name) k) <|> olookup sdef k)) ∧
    process_service gmEx gdEx "/p" [] [("roles", Value.list [Value.str "R1", Value.str "R2"])] =
      some [("roles", Value.list [Value.str "R1", Value.str "R2"]),
            ("defaults", Value.map [("v", Value.int 2)])] ∧
    process_service gmEx gdEx "/p" []
        [("roles", Value.list [Value.str "R1",
          Value.map [("role", Value.str "R2"), ("v", Value.int 9)]])] =
      some [("roles", Value.list [Value.str "R1",
          Value.map [("role", Value.str "R2"), ("v", Value.int 9)]]),
            ("defaults", Value.map [("v", Value.int 9)])] := by
  refine ⟨?_, ?_, rfl, rfl⟩
  · intro gm gd pr sdef m name k hrole hnda hndd
    refine ⟨?_, ?_⟩
    · simp only [roleStep, hrole]
    · rw [update_lookup _ _ _ hnda, update_lookup _ _ _ hndd]
  · intro gd sdef name k hndd
    rw [update_lookup _ _ _ hndd]

/-- C5 witness: the role-step clause applied at role R2 invoked with
argument v ↦ 9 over service defaults v ↦ 1. -/
theorem role_precedence_witness :
    roleStep gmEx gdEx ([], [("v", Value.int 1)])
        (Value.map [("role", Value.str "R2"), ("v", Value.int 9)]) =
      some (update [] (gmEx "R2"),
        update (update [("v", Value.int 1)] (gdEx "R2"))
          (oremove [("role", Value.str "R2"), ("v", Value.int 9)] "role")) ∧
    olookup (update (update [("v", Value.int 1)] (gdEx "R2"))
        (oremove [("role", Value.str "R2"), ("v", Value.int 9)] "role")) "v" =
      ((olookup (oremove [("role", Value.str "R2"), ("v", Value.int 9)] "role") "v") <|>
        ((olookup (gdEx "R2") "v") <|> olookup [("v", Value.int 1)] "v")) :=
  role_precedence.1 gmEx gdEx [] [("v", Value.int 1)]
    [("role", Value.str "R2"), ("v", Value.int 9)] "R2" "v" rfl (by decide) (by decide)

/-- C7: each service is processed in strict isolation — its
`service_defaults` is built from its own copy of the baseline defaults and
its own role list only, its entry is evaluated against exactly that final
`service_defaults`, and the output for a service is a function of its own
data and the baseline alone, so another service's data never changes it. -/
theorem service_scope_isolation :
    (∀ (gm gd : String → OMap) (pwd : String) (df sd o : OMap),
      process_service gm gd pwd df sd = some o →
      ∃ sd2 roles pr sdef ev,
        pwdVolumes pwd sd = some sd2 ∧ rolesOf sd2 = some roles ∧
        roles.foldlM (roleStep gm gd) (([] : OMap), df) = some (pr, sdef) ∧
        process_section false sdef (update pr sd2) = some ev ∧
        o = oset ev "defaults" (Value.map sdef)) ∧
    (∀ (gm gd : String → OMap) (pwd : String) (df svcs out : OMap) (name : String) (m : OMap),
      process_services gm gd pwd df svcs = some out →
      nodupKeys svcs = true →
      (name, Value.map m) ∈ svcs →
      ∃ o, process_service gm gd pwd df m = some o ∧ olookup out name = some (Value.map o)) ∧
    (∀ (gm gd : String → OMap) (pwd : String) (df svcs svcs2 out out2 : OMap)
      (name : String) (m : OMap),
      process_services gm gd pwd df svcs = some out →
      process_services gm gd pwd df svcs2 = some out2 →
      nodupKeys svcs = true → nodupKeys svcs2 = true →
      (name, Value.map m) ∈ svcs → (name, Value.map m) ∈ svcs2 →
      olookup out name = olookup out2 name) := by
  refine ⟨process_service_inv, ?_, ?_⟩
  · intro gm gd pwd df svcs out name m h hnd hm
    exact pservices_fold_mem gm gd pwd df svcs [] out h hnd name m hm
  · intro gm gd pwd df svcs svcs2 out out2 name m h1 h2 hnd1 hnd2 hm1 hm2
    obtain ⟨o, ho, hl1⟩ := pservices_fold_mem gm gd pwd df svcs [] out h1 hnd1 name m hm1
    obtain ⟨o2, ho2, hl2⟩ := pservices_fold_mem gm gd pwd df svcs2 [] out2 h2 hnd2 name m hm2
    rw [ho] at ho2
    injection ho2 with ho3
    rw [hl1, hl2, ho3]

/-- C7 witness: the membership clause applied to a one-service map under
the empty baseline. -/
theorem service_scope_isolation_witness :
    ∃ o, process_service gmEx gdEx "/p" [] [("image", Value.str "i")] = some o ∧
      olookup [("web", Value.map [("image", Value.str "i"), ("defaults", Value.map [])])]
        "web" = some (Value.map o) :=
  service_scope_isolation.2.1 gmEx gdEx "/p" [] [("web", Value.map [("image", Value.str "i")])]
    [("web", Value.map [("image", Value.str "i"), ("defaults", Value.map [])])]
    "web" [("image", Value.str "i")] rfl (by decide) (List.mem_cons_self _ _)

/-- C10: the resolved output entry of every service carries its final
`service_defaults` under the reserved key `defaults` (line 358 assigns it
after evaluation), unconditionally overwriting any evaluated `defaults` key
the merged entry itself declared; concretely a service declaring
`defaults: "OWN"` loses it to the attached mapping. -/
theorem defaults_key_clobber :
    (∀ (gm gd : String → OMap) (pwd : String) (df sd o : OMap),
      process_service gm gd pwd df sd = some o →
      ∃ sdef, (∃ sd2 roles pr, pwdVolumes pwd sd = some sd2 ∧ rolesOf sd2 = some roles ∧
        roles.foldlM (roleStep gm gd) (([] : OMap), df) = some (pr, sdef)) ∧
        olookup o "defaults" = some (Value.map sdef)) ∧
    process_service gmEx gdEx "/p" [("a", Value.int 1)]
        [("defaults", Value.str "OWN"), ("image", Value.str "img")] =
      some [("defaults", Value.map [("a", Value.int 1)]), ("image", Value.str "img")] := by
  refine ⟨?_, rfl⟩
  intro gm gd pwd df sd o h
  obtain ⟨sd2, roles, pr, sdef, ev, h1, h2, h3, h4, h5⟩ :=
    process_service_inv gm gd pwd df sd o h
  refine ⟨sdef, ⟨sd2, roles, pr, h1, h2, h3⟩, ?_⟩
  rw [h5, oset_lookup, if_pos rfl]

/-- C10 witness: the clobber theorem applied to the concrete service that
declares its own `defaults` key. -/
theorem defaults_key_clobber_witness :
    ∃ sdef, (∃ sd2 roles pr,
        pwdVolumes "/p" [("defaults", Value.str "OWN"), ("image", Value.str "img")] = some sd2 ∧
        rolesOf sd2 = some roles ∧
        roles.foldlM (roleStep gmEx gdEx) (([] : OMap), [("a", Value.int 1)]) =
          some (pr, sdef)) ∧
      olookup [("defaults", Value.map [("a", Value.int 1)]), ("image", Value.str "img")]
        "defaults" = some (Value.map sdef) :=
  defaults_key_clobber.1 gmEx gdEx "/p" [("a", Value.int 1)]
    [("defaults", Value.str "OWN"), ("image", Value.str "img")]
    [("defaults", Value.map [("a", Value.int 1)]), ("image", Value.str "img")] rfl

theorem validate_config_split (config : OMap) :
    validate_config config = .error (.configError "Missing expected key 'services'") ∨
    validate_config config = validate_keys config config false := by
  unfold validate_config
  cases olookup config "services" with
  | none => exact Or.inl rfl
  | some v =>
    cases v with
    | null => exact Or.inl rfl
    | str s => exact Or.inr rfl
    | int n => exact Or.inr rfl
    | bool b => exact Or.inr rfl
    | list xs => exact Or.inr rfl
    | map kvs => exact Or.inr rfl

/-- C8: `_validate_config` — a missing or null `services` key fails with
ConfigError; a present top-level key outside the whitelist makes loading
fail with ConfigError, and with the offending key removed (all else equal)
validation succeeds; a null whitelisted key other than `version` is
normalized to an empty mapping; a `version` outside the supported set
fails with ConfigError while version "1" only sets the (non-fatal)
deprecation-warning flag. -/
theorem top_level_validation :
    (∀ config : OMap, olookup config "services" = none →
      validate_config config = .error (.configError "Missing expected key 'services'")) ∧
    (∀ config : OMap, olookup config "services" = some Value.null →
      validate_config config = .error (.configError "Missing expected key 'services'")) ∧
    (∀ (config : OMap) (p : String × Value), p ∈ config →
      TOP_LEVEL_WHITELIST.contains p.1 = false →
      ∃ msg, validate_config config = .error (.configError msg)) ∧
    (validate_config [("services", Value.map [("web", Value.map [("image", Value.str "x")])]),
        ("bogus", Value.int 1)] = .error (.configError "invalid key 'bogus'") ∧
      validate_config (oremove
          [("services", Value.map [("web", Value.map [("image", Value.str "x")])]),
           ("bogus", Value.int 1)] "bogus") =
        .ok ([("services", Value.map [("web", Value.map [("image", Value.str "x")])])], false)) ∧
    (∀ (config : OMap) (res : OMap × Bool), validate_config config = .ok res →
      nodupKeys config = true → ∀ k, (k, Value.null) ∈ config → ¬ k = "version" →
      olookup res.1 k = some (Value.map [])) ∧
    (∀ (config : OMap) (res : OMap × Bool) (v : Value), validate_config config = .ok res →
      ("version", v) ∈ config → v = Value.str "1" ∨ v = Value.str "2") ∧
    (∀ (config : OMap) (v : Value), ("version", v) ∈ config →
      ¬ v = Value.str "1" → ¬ v = Value.str "2" →
      ∃ msg, validate_config config = .error (.configError msg)) ∧
    (∀ (config : OMap) (res : OMap × Bool), validate_config config = .ok res →
      ("version", Value.str "1") ∈ config → res.2 = true) ∧
    validate_config [("version", Value.str "1"),
        ("services", Value.map [("w", Value.map [("a", Value.int 1)])])] =
      .ok ([("version", Value.str "1"),
        ("services", Value.map [("w", Value.map [("a", Value.int 1)])])], true) := by
  refine ⟨?_, ?_, ?_, ⟨rfl, rfl⟩, ?_, ?_, ?_, ?_, rfl⟩
  · intro config h
    simp [validate_config, h]
  · intro config h
    simp [validate_config, h]
  · intro config p hp hwl
    rcases validate_config_split config with hsplit | hsplit
    · exact ⟨_, hsplit⟩
    · rcases validate_keys_shape config config false with ⟨res, hok⟩ | ⟨msg, herr⟩
      · have := (validate_keys_ok_all config config false res hok).1 p hp
        rw [hwl] at this
        cases this
      · exact ⟨msg, by rw [hsplit, herr]⟩
  · intro config res h hnd k hk hkv
    rcases validate_config_split config with hsplit | hsplit
    · rw [hsplit] at h
      cases h
    · rw [hsplit] at h
      exact validate_keys_null config config false res h hnd k hk hkv
  · intro config res v h hv
    rcases validate_config_split config with hsplit | hsplit
    · rw [hsplit] at h
      cases h
    · rw [hsplit] at h
      exact (validate_keys_ok_all config config false res h).2 v hv
  · intro config v hv h1 h2
    rcases validate_config_split config with hsplit | hsplit
    · exact ⟨_, hsplit⟩
    · rcases validate_keys_shape config config false with ⟨res, hok⟩ | ⟨msg, herr⟩
      · rcases (validate_keys_ok_all config config false res hok).2 v hv with hh | hh
        · exact absurd hh h1
        · exact absurd hh h2
      · exact ⟨msg, by rw [hsplit, herr]⟩
  · intro config res h hv
    rcases validate_config_split config with hsplit | hsplit
    · rw [hsplit] at h
      cases h
    · rw [hsplit] at h
      exact (validate_keys_warn config config false res h).2 hv

/-- C8 witness: the null-normalization clause applied to a concrete config
with a null `volumes` section. -/
theorem top_level_validation_witness :
    olookup ([("services", Value.map [("w", Value.map [])]), ("volumes", Value.map [])] : OMap)
        "volumes" = some (Value.map []) :=
  top_level_validation.2.2.2.2.1
    [("services", Value.map [("w", Value.map [])]), ("volumes", Value.null)]
    ([("services", Value.map [("w", Value.map [])]), ("volumes", Value.map [])], false)
    rfl (by decide) "volumes"
    (List.mem_cons_of_mem _ (List.mem_cons_self _ _)) (by decide)
